import Mathlib

/-!
Shallow embedding of two modules of the `causica` repository:

* `src/causica/graph/evaluation_metrics.py` — graph-comparison metrics
  (adjacency / orientation precision, recall and F1) over adjacency
  matrices.  Tensors of matrix entries are modelled over `ℚ`; an n×n
  adjacency matrix is modelled as a size `n` together with an entry
  function `ℕ → ℕ → ℚ` (entries outside the n×n block are never read
  by the metrics).  Boolean tensors become `List Bool`, `.sum()` on a
  boolean tensor becomes `List.count true`, and the float division of
  two counts becomes exact division in `ℚ`.

* `src/causica/distributions/noise_accessible/bernoulli.py` — the
  noise-accessible Bernoulli distribution.  Real tensors are modelled
  as a shape (`List ℕ`) together with a flat entry function `ℕ → ℝ`;
  all elementwise operations are modelled for equal shapes, which is
  the documented contract (broadcasting is not modelled).  The two
  internal standard-Gumbel draws of `sample_to_noise` are passed in
  explicitly, so that statements quantify over every outcome of the
  draws; the `assert` is modelled by an `Option` result, `none` being
  the assertion failure.
-/

namespace Causica

/-! ### Graph evaluation metrics (`evaluation_metrics.py`) -/

/-- The list of ordered node pairs `(i, j)` with `i < j < n`, in a fixed
order; each entry stands for one unordered node pair. -/
def pairList (n : ℕ) : List (ℕ × ℕ) :=
  (List.range n).flatMap fun i =>
    (List.range n).filterMap fun j => if i < j then some (i, j) else none

/-- Modelled from the spec: `unfill_triangular` lives in
`causica.triangular_transformations`, which is not among the sources; the
spec's contract is that `unfill_triangular(M, upper)` flattens the strictly
upper (`upper = true`) or strictly lower triangle of an n×n matrix into a
vector of length n(n-1)/2, where position k of the upper and of the lower
vector correspond to the same unordered node pair. -/
def unfill_triangular (n : ℕ) (graph : ℕ → ℕ → ℚ) (upper : Bool) : List ℚ :=
  (pairList n).map fun p => if upper then graph p.1 p.2 else graph p.2 p.1

/-- `_to_vector`: convert an adjacency matrix to a vector of length
n(n-1)/2; `0` for no edge, `-1` or `1` for a single edge and `2` for both
edges between a pair of nodes (docstring of the source).  Follows the
source line by line: `diff = upper_tri - lower_tri`, result
`diff + (1 - |diff|) * (upper_tri + lower_tri)`. -/
def _to_vector (n : ℕ) (graph : ℕ → ℕ → ℚ) : List ℚ :=
  let lower_tri := unfill_triangular n graph false
  let upper_tri := unfill_triangular n graph true
  let diff := List.zipWith (fun u l => u - l) upper_tri lower_tri
  List.zipWith (fun d s => d + (1 - |d|) * s) diff
    (List.zipWith (fun u l => u + l) upper_tri lower_tri)

/-- The value of `_to_vector` at the slot of one unordered node pair
`p = (i, j)`, written directly in terms of the two matrix entries. -/
def pairCode (graph : ℕ → ℕ → ℚ) (p : ℕ × ℕ) : ℚ :=
  let u := graph p.1 p.2
  let l := graph p.2 p.1
  (u - l) + (1 - |u - l|) * (u + l)

/-- `adjacency_precision_recall`: precision and recall of edge existence.
`vec1 = |_to_vector(graph1)| > 0`, likewise `vec2`;
`correspondence = (vec1 & vec2).sum()`; recall divides by `vec1.sum()`,
precision by `vec2.sum()`, each `0` when its denominator is `0`.
Returns `(precision, recall)` as the source does. -/
def adjacency_precision_recall (n : ℕ) (graph1 graph2 : ℕ → ℕ → ℚ) : ℚ × ℚ :=
  let vec1 := (_to_vector n graph1).map fun x => decide (0 < |x|)
  let vec2 := (_to_vector n graph2).map fun x => decide (0 < |x|)
  let correspondence := (List.zipWith (fun a b => a && b) vec1 vec2).count true
  let recall_v : ℚ :=
    if vec1.count true ≠ 0 then (correspondence : ℚ) / (vec1.count true : ℚ) else 0
  let precision_v : ℚ :=
    if vec2.count true ≠ 0 then (correspondence : ℚ) / (vec2.count true : ℚ) else 0
  (precision_v, recall_v)

/-- `orientation_precision_recall`: precision and recall of edge
orientation, over the signed vectors; recall counts
`(vec1 == vec2) & (vec1 != 0)` against `(vec1 != 0).sum()`, precision
counts `(vec1 == vec2) & (vec2 != 0)` against `(vec2 != 0).sum()`,
each `0` when its denominator is `0`. -/
def orientation_precision_recall (n : ℕ) (graph1 graph2 : ℕ → ℕ → ℚ) : ℚ × ℚ :=
  let vec1 := _to_vector n graph1
  let vec2 := _to_vector n graph2
  let non_zero_vec1 := vec1.map fun x => decide (x ≠ 0)
  let non_zero_vec2 := vec2.map fun x => decide (x ≠ 0)
  let eq12 := List.zipWith (fun a b => decide (a = b)) vec1 vec2
  let recall_v : ℚ :=
    if non_zero_vec1.count true ≠ 0 then
      ((List.zipWith (fun a b => a && b) eq12 non_zero_vec1).count true : ℚ) /
        (non_zero_vec1.count true : ℚ)
    else 0
  let precision_v : ℚ :=
    if non_zero_vec2.count true ≠ 0 then
      ((List.zipWith (fun a b => a && b) eq12 non_zero_vec2).count true : ℚ) /
        (non_zero_vec2.count true : ℚ)
    else 0
  (precision_v, recall_v)

/-- `f1_score`: `2·p·r/(p+r)`, or `0` when `|p + r| < 1e-8`. -/
def f1_score (precision_v recall_v : ℚ) : ℚ :=
  if |precision_v + recall_v| < 1 / 100000000 then 0
  else 2 * precision_v * recall_v / (precision_v + recall_v)

/-- The adjacency metrics as the spec words them: per unordered node pair,
an edge is "present" in `graphk` when `0 < |pairCode graphk p|`;
`correspondence` counts the pairs present in both, recall divides it by
graph1's edge count and precision by graph2's, zero denominators giving 0. -/
def adjacencySpec (n : ℕ) (graph1 graph2 : ℕ → ℕ → ℚ) : ℚ × ℚ :=
  let c1 := (pairList n).countP fun p => decide (0 < |pairCode graph1 p|)
  let c2 := (pairList n).countP fun p => decide (0 < |pairCode graph2 p|)
  let corr := (pairList n).countP fun p =>
    decide (0 < |pairCode graph1 p|) && decide (0 < |pairCode graph2 p|)
  (if c2 = 0 then 0 else (corr : ℚ) / (c2 : ℚ),
   if c1 = 0 then 0 else (corr : ℚ) / (c1 : ℚ))

/-- The orientation metrics as the spec words them: recall is the number of
pairs whose signed codes agree and whose graph1 code is nonzero, divided by
the number of nonzero graph1 codes; precision likewise for graph2; zero
denominators give 0. -/
def orientationSpec (n : ℕ) (graph1 graph2 : ℕ → ℕ → ℚ) : ℚ × ℚ :=
  let c1 := (pairList n).countP fun p => decide (pairCode graph1 p ≠ 0)
  let c2 := (pairList n).countP fun p => decide (pairCode graph2 p ≠ 0)
  let m1 := (pairList n).countP fun p =>
    decide (pairCode graph1 p = pairCode graph2 p) && decide (pairCode graph1 p ≠ 0)
  let m2 := (pairList n).countP fun p =>
    decide (pairCode graph1 p = pairCode graph2 p) && decide (pairCode graph2 p ≠ 0)
  (if c2 = 0 then 0 else (m2 : ℚ) / (c2 : ℚ),
   if c1 = 0 then 0 else (m1 : ℚ) / (c1 : ℚ))

/-! ### Helper lemmas about the list pipeline -/

theorem zipWith_map_same {α β γ δ : Type} (f : β → γ → δ) (g : α → β) (h : α → γ)
    (l : List α) :
    List.zipWith f (l.map g) (l.map h) = l.map fun x => f (g x) (h x) := by
  induction l with
  | nil => rfl
  | cons a t ih => simp [ih]

theorem count_true_map {α : Type} (l : List α) (p : α → Bool) :
    (l.map p).count true = l.countP p := by
  induction l with
  | nil => rfl
  | cons a t ih =>
    cases h : p a <;> simp [List.count_cons, List.countP_cons, h, ih]

theorem countP_ext {α : Type} (l : List α) (p q : α → Bool) (h : ∀ a, p a = q a) :
    l.countP p = l.countP q := by
  induction l with
  | nil => rfl
  | cons a t ih => simp [List.countP_cons, h, ih]

theorem countP_and_le_left {α : Type} (l : List α) (p q : α → Bool) :
    (l.countP fun x => p x && q x) ≤ l.countP p := by
  induction l with
  | nil => exact Nat.le_refl 0
  | cons a t ih =>
    simp only [List.countP_cons]
    cases hp : p a <;> cases hq : q a <;> simp [hp, hq] <;> omega

theorem countP_and_le_right {α : Type} (l : List α) (p q : α → Bool) :
    (l.countP fun x => p x && q x) ≤ l.countP q := by
  calc (l.countP fun x => p x && q x) = l.countP fun x => q x && p x :=
        countP_ext l _ _ fun a => Bool.and_comm (p a) (q a)
    _ ≤ l.countP q := countP_and_le_left l q p

/-- `_to_vector` is the per-pair code mapped over the pair list. -/
theorem to_vector_eq_map (n : ℕ) (graph : ℕ → ℕ → ℚ) :
    _to_vector n graph = (pairList n).map (pairCode graph) := by
  simp [_to_vector, unfill_triangular, zipWith_map_same, pairCode]

/-- The adjacency metric pipeline equals its per-pair description. -/
theorem adjacency_eq_spec (n : ℕ) (graph1 graph2 : ℕ → ℕ → ℚ) :
    adjacency_precision_recall n graph1 graph2 = adjacencySpec n graph1 graph2 := by
  simp only [adjacency_precision_recall, adjacencySpec, to_vector_eq_map,
    List.map_map, zipWith_map_same, count_true_map, Function.comp_def, ite_not]

/-- The orientation metric pipeline equals its per-pair description. -/
theorem orientation_eq_spec (n : ℕ) (graph1 graph2 : ℕ → ℕ → ℚ) :
    orientation_precision_recall n graph1 graph2 = orientationSpec n graph1 graph2 := by
  simp only [orientation_precision_recall, orientationSpec, to_vector_eq_map,
    List.map_map, zipWith_map_same, count_true_map, Function.comp_def, ite_not]

theorem mem_pairList (n : ℕ) (p : ℕ × ℕ) : p ∈ pairList n ↔ p.1 < p.2 ∧ p.2 < n := by
  unfold pairList
  simp only [List.mem_flatMap, List.mem_filterMap, List.mem_range]
  constructor
  · rintro ⟨i, hi, j, hj, hij⟩
    split at hij
    · cases hij
      exact ⟨by assumption, hj⟩
    · exact absurd hij (by simp)
  · rintro ⟨h1, h2⟩
    exact ⟨p.1, lt_trans h1 h2, p.2, h2, by simp [h1]⟩

/-- With 0/1 entries, a pair one of whose directed edges is present has a
nonzero code. -/
theorem pairCode_ne_zero_of_edge (M : ℕ → ℕ → ℚ)
    (h01 : ∀ i j, M i j = 0 ∨ M i j = 1) (i j : ℕ)
    (h : M i j ≠ 0 ∨ M j i ≠ 0) : pairCode M (i, j) ≠ 0 := by
  rcases h01 i j with hu | hu <;> rcases h01 j i with hl | hl <;>
    simp [pairCode, hu, hl] at h ⊢

/-- An off-diagonal-zero matrix has an all-zero code vector. -/
theorem pairCode_eq_zero_of_no_edge (M : ℕ → ℕ → ℚ)
    (h0 : ∀ i j, i ≠ j → M i j = 0) (i j : ℕ) (hij : i ≠ j) :
    pairCode M (i, j) = 0 := by
  simp [pairCode, h0 i j hij, h0 j i (Ne.symm hij)]

theorem div_count_bounds (a b : ℕ) (hab : a ≤ b) :
    0 ≤ (if b = 0 then (0 : ℚ) else (a : ℚ) / (b : ℚ)) ∧
      (if b = 0 then (0 : ℚ) else (a : ℚ) / (b : ℚ)) ≤ 1 := by
  split
  · exact ⟨le_refl 0, zero_le_one⟩
  · next h =>
    have hb : (0 : ℚ) < (b : ℚ) := by exact_mod_cast Nat.pos_of_ne_zero h
    constructor
    · positivity
    · rw [div_le_one hb]
      exact_mod_cast hab

/-! ### Example adjacency matrices -/

/-- 2-or-more-node graph with the single directed edge 0 → 1. -/
def exG1 : ℕ → ℕ → ℚ := fun i j => if i = 0 ∧ j = 1 then 1 else 0

/-- 2-or-more-node graph with the single directed edge 1 → 0. -/
def exG2 : ℕ → ℕ → ℚ := fun i j => if i = 1 ∧ j = 0 then 1 else 0

/-- Graph whose single directed edge 0 → 1 carries weight 2. -/
def exDouble : ℕ → ℕ → ℚ := fun i j => if i = 0 ∧ j = 1 then 2 else 0

/-! ### Claims about the graph metrics -/

/-- C5: `adjacency_precision_recall` computes `vec1 = |_to_vector(graph1)| > 0`,
`vec2` likewise, `correspondence = count(vec1 AND vec2)`, and returns
`recall = correspondence / count(vec1)` and
`precision = correspondence / count(vec2)`, each `0` (never an error) when
its denominator count is `0` — stated as equality with `adjacencySpec`,
the per-pair transcription of exactly that description. -/
theorem adjacency_precision_recall_correct (n : ℕ) (graph1 graph2 : ℕ → ℕ → ℚ) :
    adjacency_precision_recall n graph1 graph2 = adjacencySpec n graph1 graph2 :=
  adjacency_eq_spec n graph1 graph2

/-- C6: for a 0/1 adjacency matrix, the code of an unordered pair is `0`
iff neither directed edge exists, `1` for the edge `i → j` alone (`i < j`
slot), `-1` for the edge `j → i` alone, `2` when both exist; and for the
3-node graph with only `matrix[0,1] = 1` the vector is `[1, 0, 0]`. -/
theorem to_vector_encoding_correct (M : ℕ → ℕ → ℚ)
    (h01 : ∀ i j, M i j = 0 ∨ M i j = 1) (i j : ℕ) :
    (pairCode M (i, j) = 0 ↔ M i j = 0 ∧ M j i = 0) ∧
    (M i j = 1 ∧ M j i = 0 → pairCode M (i, j) = 1) ∧
    (M i j = 0 ∧ M j i = 1 → pairCode M (i, j) = -1) ∧
    (M i j = 1 ∧ M j i = 1 → pairCode M (i, j) = 2) ∧
    _to_vector 3 exG1 = [1, 0, 0] := by
  have hp3 : pairList 3 = [(0, 1), (0, 2), (1, 2)] := by decide
  have hc01 : pairCode exG1 (0, 1) = 1 := by norm_num [pairCode, exG1]
  have hc02 : pairCode exG1 (0, 2) = 0 := by norm_num [pairCode, exG1]
  have hc12 : pairCode exG1 (1, 2) = 0 := by norm_num [pairCode, exG1]
  have hvec : _to_vector 3 exG1 = [1, 0, 0] := by
    rw [to_vector_eq_map, hp3]
    simp [hc01, hc02, hc12]
  rcases h01 i j with hu | hu <;> rcases h01 j i with hl | hl <;>
    refine ⟨?_, ?_, ?_, ?_, hvec⟩ <;> norm_num [pairCode, hu, hl]

theorem to_vector_encoding_correct_witness :
    (pairCode exG1 (0, 1) = 0 ↔ exG1 0 1 = 0 ∧ exG1 1 0 = 0) ∧
    (exG1 0 1 = 1 ∧ exG1 1 0 = 0 → pairCode exG1 (0, 1) = 1) ∧
    (exG1 0 1 = 0 ∧ exG1 1 0 = 1 → pairCode exG1 (0, 1) = -1) ∧
    (exG1 0 1 = 1 ∧ exG1 1 0 = 1 → pairCode exG1 (0, 1) = 2) ∧
    _to_vector 3 exG1 = [1, 0, 0] :=
  to_vector_encoding_correct exG1
    (fun i j => by by_cases h : i = 0 ∧ j = 1 <;> simp [exG1, h]) 0 1

/-- C7 counterexample: `exDouble` has the off-diagonal nonzero entry
`exDouble 0 1 = 2`, yet `adjacency_precision_recall` of the graph against
itself is `(0, 0)`, not `(1, 1)`: entry magnitudes do matter. -/
theorem adjacency_self_weighted_countermodel :
    exDouble 0 1 ≠ 0 ∧
    adjacency_precision_recall 2 exDouble exDouble = (0, 0) ∧
    adjacency_precision_recall 2 exDouble exDouble ≠ (1, 1) := by
  have hp2 : pairList 2 = [(0, 1)] := by decide
  have hcode : pairCode exDouble (0, 1) = 0 := by norm_num [pairCode, exDouble]
  have hval : adjacency_precision_recall 2 exDouble exDouble = (0, 0) := by
    rw [adjacency_eq_spec]
    simp [adjacencySpec, hp2, hcode]
  refine ⟨by norm_num [exDouble], hval, ?_⟩
  rw [hval]
  intro hcontra
  exact one_ne_zero (congrArg Prod.fst hcontra).symm

/-- C7 (amended): for a 0/1 adjacency matrix `M`,
`adjacency_precision_recall M M` is `(1, 1)` whenever `M` has at least one
edge (an off-diagonal nonzero entry inside the n×n block) and `(0, 0)`
when it has none. -/
theorem adjacency_self_correct_on_binary (n : ℕ) (M : ℕ → ℕ → ℚ)
    (h01 : ∀ i j, M i j = 0 ∨ M i j = 1) :
    ((∃ i j, i < n ∧ j < n ∧ i ≠ j ∧ M i j ≠ 0) →
      adjacency_precision_recall n M M = (1, 1)) ∧
    ((∀ i j, i ≠ j → M i j = 0) →
      adjacency_precision_recall n M M = (0, 0)) := by
  constructor
  · rintro ⟨i, j, hi, hj, hij, hMij⟩
    rw [adjacency_eq_spec]
    have hcorr : ((pairList n).countP fun p =>
        decide (0 < |pairCode M p|) && decide (0 < |pairCode M p|)) =
        (pairList n).countP fun p => decide (0 < |pairCode M p|) :=
      countP_ext _ _ _ fun a => Bool.and_self _
    have hqmem : (if i < j then (i, j) else (j, i)) ∈ pairList n := by
      rcases Nat.lt_or_ge i j with h | h
      · rw [if_pos h]
        exact (mem_pairList n (i, j)).2 ⟨h, hj⟩
      · have hji : j < i := lt_of_le_of_ne h (Ne.symm hij)
        rw [if_neg (Nat.not_lt.mpr h)]
        exact (mem_pairList n (j, i)).2 ⟨hji, hi⟩
    have hqcode : pairCode M (if i < j then (i, j) else (j, i)) ≠ 0 := by
      split
      · exact pairCode_ne_zero_of_edge M h01 i j (Or.inl hMij)
      · exact pairCode_ne_zero_of_edge M h01 j i (Or.inr hMij)
    have hpos : 0 < (pairList n).countP fun p => decide (0 < |pairCode M p|) := by
      rw [List.countP_pos_iff]
      exact ⟨_, hqmem, by simpa [abs_pos] using hqcode⟩
    have hne : ((pairList n).countP fun p => decide (0 < |pairCode M p|)) ≠ 0 :=
      Nat.pos_iff_ne_zero.mp hpos
    have hcast : (((pairList n).countP fun p => decide (0 < |pairCode M p|)) : ℚ) ≠ 0 :=
      Nat.cast_ne_zero.mpr hne
    simp only [adjacencySpec]
    rw [hcorr, if_neg hne, div_self hcast]
  · intro h0
    rw [adjacency_eq_spec]
    have hzero : ∀ (p : ℕ × ℕ), p ∈ pairList n → pairCode M p = 0 := by
      intro p hp
      rcases (mem_pairList n p).1 hp with ⟨hlt, _⟩
      exact pairCode_eq_zero_of_no_edge M h0 p.1 p.2 (Nat.ne_of_lt hlt)
    have hc : ((pairList n).countP fun p => decide (0 < |pairCode M p|)) = 0 :=
      List.countP_eq_zero.mpr fun p hp => by simp [hzero p hp]
    have hc2 : ((pairList n).countP fun p =>
        decide (0 < |pairCode M p|) && decide (0 < |pairCode M p|)) = 0 :=
      List.countP_eq_zero.mpr fun p hp => by simp [hzero p hp]
    simp only [adjacencySpec]
    rw [hc, hc2]
    norm_num

theorem adjacency_self_correct_on_binary_witness :
    adjacency_precision_recall 2 exG1 exG1 = (1, 1) :=
  (adjacency_self_correct_on_binary 2 exG1
      (fun i j => by by_cases h : i = 0 ∧ j = 1 <;> simp [exG1, h])).1
    ⟨0, 1, by decide, by decide, by decide, by decide⟩

/-- C8: `orientation_precision_recall` matches the spec's description via
the signed codes (equality with `orientationSpec`), and on the 2-node
graphs with opposite single edges, adjacency precision/recall are both 1
while orientation precision/recall are both 0. -/
theorem orientation_metrics_example_correct :
    (∀ (n : ℕ) (graph1 graph2 : ℕ → ℕ → ℚ),
      orientation_precision_recall n graph1 graph2 = orientationSpec n graph1 graph2) ∧
    adjacency_precision_recall 2 exG1 exG2 = (1, 1) ∧
    orientation_precision_recall 2 exG1 exG2 = (0, 0) := by
  have hp2 : pairList 2 = [(0, 1)] := by decide
  have h1 : pairCode exG1 (0, 1) = 1 := by norm_num [pairCode, exG1]
  have h2 : pairCode exG2 (0, 1) = -1 := by norm_num [pairCode, exG2]
  refine ⟨orientation_eq_spec, ?_, ?_⟩
  · rw [adjacency_eq_spec]
    norm_num [adjacencySpec, hp2, h1, h2]
  · rw [orientation_eq_spec]
    norm_num [orientationSpec, hp2, h1, h2]

/-- C9: `f1_score p r` is `0` when `|p + r| < 1e-8` and `2·p·r/(p+r)`
otherwise; in particular `f1_score 0 0 = 0`. -/
theorem f1_score_correct :
    (∀ p r : ℚ, f1_score p r =
      if |p + r| < 1 / 100000000 then 0 else 2 * p * r / (p + r)) ∧
    f1_score 0 0 = 0 :=
  ⟨fun _ _ => rfl, by norm_num [f1_score]⟩

/-- C10: both metric pairs lie in `[0, 1]` componentwise, and swapping the
graph arguments swaps precision and recall, for both metrics. -/
theorem metrics_bounds_and_swap (n : ℕ) (graph1 graph2 : ℕ → ℕ → ℚ) :
    (0 ≤ (adjacency_precision_recall n graph1 graph2).1 ∧
      (adjacency_precision_recall n graph1 graph2).1 ≤ 1) ∧
    (0 ≤ (adjacency_precision_recall n graph1 graph2).2 ∧
      (adjacency_precision_recall n graph1 graph2).2 ≤ 1) ∧
    (0 ≤ (orientation_precision_recall n graph1 graph2).1 ∧
      (orientation_precision_recall n graph1 graph2).1 ≤ 1) ∧
    (0 ≤ (orientation_precision_recall n graph1 graph2).2 ∧
      (orientation_precision_recall n graph1 graph2).2 ≤ 1) ∧
    (adjacency_precision_recall n graph1 graph2).1 =
      (adjacency_precision_recall n graph2 graph1).2 ∧
    (orientation_precision_recall n graph1 graph2).1 =
      (orientation_precision_recall n graph2 graph1).2 := by
  rw [adjacency_eq_spec, adjacency_eq_spec, orientation_eq_spec, orientation_eq_spec]
  refine ⟨?_, ?_, ?_, ?_, ?_, ?_⟩
  · exact div_count_bounds _ _ (countP_and_le_right _ _ _)
  · exact div_count_bounds _ _ (countP_and_le_left _ _ _)
  · exact div_count_bounds _ _ (countP_and_le_right _ _ _)
  · exact div_count_bounds _ _ (countP_and_le_right _ _ _)
  · simp only [adjacencySpec]
    rw [countP_ext (pairList n)
      (fun p => decide (0 < |pairCode graph2 p|) && decide (0 < |pairCode graph1 p|))
      (fun p => decide (0 < |pairCode graph1 p|) && decide (0 < |pairCode graph2 p|))
      (fun a => Bool.and_comm _ _)]
  · simp only [orientationSpec]
    rw [countP_ext (pairList n)
      (fun p => decide (pairCode graph2 p = pairCode graph1 p) &&
        decide (pairCode graph2 p ≠ 0))
      (fun p => decide (pairCode graph1 p = pairCode graph2 p) &&
        decide (pairCode graph2 p ≠ 0))
      (fun a => by
        show (decide (pairCode graph2 a = pairCode graph1 a) &&
              decide (pairCode graph2 a ≠ 0)) =
            (decide (pairCode graph1 a = pairCode graph2 a) &&
              decide (pairCode graph2 a ≠ 0))
        rw [show decide (pairCode graph2 a = pairCode graph1 a) =
            decide (pairCode graph1 a = pairCode graph2 a) from
          decide_eq_decide.mpr eq_comm])]

/-! ### Noise-accessible Bernoulli (`bernoulli.py`) -/

noncomputable section

/-- `softplus(x) = log(1 + exp x)` (`torch.nn.functional.softplus`). -/
def softplus (x : ℝ) : ℝ := Real.log (1 + Real.exp x)

theorem softplus_pos (x : ℝ) : 0 < softplus x :=
  Real.log_pos (by linarith [Real.exp_pos x])

/-- A real torch tensor: a shape together with a flat entry function. -/
structure Tensor where
  shape : List ℕ
  data : ℕ → ℝ

/-- Elementwise equality of two tensors (`(a == b).all()`). -/
def Tensor.eqAll (t u : Tensor) : Prop :=
  t.shape = u.shape ∧ ∀ i, t.data i = u.data i

/-- The distribution object of `bernoulli.py`: it stores `delta_logits`
and initialises the underlying Bernoulli with
`logits = base_logits + delta_logits`. -/
structure NoiseAccessibleBernoulli where
  delta_logits : Tensor
  base_logits : Tensor

/-- `self.logits` of the constructed distribution:
`base_logits + delta_logits`, elementwise (equal shapes assumed;
broadcasting is not modelled). -/
def NoiseAccessibleBernoulli.logits (m : NoiseAccessibleBernoulli) : Tensor :=
  ⟨m.delta_logits.shape, fun i => m.base_logits.data i + m.delta_logits.data i⟩

/-- `sample_to_noise` from `bernoulli.py`, line by line.  The two internal
standard-Gumbel draws are the arguments `g1 g2`, so every theorem below
quantifies over every outcome of the draws; the
`assert samples.shape == self.delta_logits.shape` is modelled by `Option`,
`none` being the assertion failure. -/
def NoiseAccessibleBernoulli.sample_to_noise (m : NoiseAccessibleBernoulli)
    (samples : Tensor) (g1 g2 : ℕ → ℝ) : Option Tensor :=
  if samples.shape = m.delta_logits.shape then
    some ⟨samples.shape, fun i =>
      let diff_sample := g1 i - g2 i
      let neg_log_prob_non_sampled :=
        softplus (m.logits.data i * samples.data i -
          m.logits.data i * (1 - samples.data i))
      let positive_sample := softplus (diff_sample + neg_log_prob_non_sampled)
      positive_sample * samples.data i -
        positive_sample * (1 - samples.data i) - m.delta_logits.data i⟩
  else none

/-- `noise_to_sample` from `bernoulli.py`:
`((self.delta_logits + noise) > 0).float()`.  A pure function of the
distribution and the noise tensor, hence deterministic by construction. -/
def NoiseAccessibleBernoulli.noise_to_sample (m : NoiseAccessibleBernoulli)
    (noise : Tensor) : Tensor :=
  ⟨noise.shape, fun i => if 0 < m.delta_logits.data i + noise.data i then 1 else 0⟩

/-- The per-entry pipeline of `sample_to_noise` as the spec words it:
`diff_sample` is the difference of the two standard-Gumbel draws,
`combined_logits = base_logits + delta_logits`,
`neg_log_prob_non_sampled = softplus(combined_logits·s − combined_logits·(1−s))`,
`positive_sample = softplus(diff_sample + neg_log_prob_non_sampled)`, and the
result is `positive_sample·s − positive_sample·(1−s) − delta_logits`. -/
def sampleToNoisePipeline (base delta s gum1 gum2 : ℝ) : ℝ :=
  let diff_sample := gum1 - gum2
  let combined_logits := base + delta
  let neg_log_prob_non_sampled :=
    softplus (combined_logits * s - combined_logits * (1 - s))
  let positive_sample := softplus (diff_sample + neg_log_prob_non_sampled)
  positive_sample * s - positive_sample * (1 - s) - delta

/-- The scalar heart of the round trip: thresholding the produced noise
entry (shifted back by `delta`) recovers a binary sample exactly, because
`softplus` is strictly positive. -/
theorem scalar_round_trip (L d s g : ℝ) (hs : s = 0 ∨ s = 1) :
    (if 0 < d + (softplus (g + softplus (L * s - L * (1 - s))) * s -
        softplus (g + softplus (L * s - L * (1 - s))) * (1 - s) - d)
      then (1 : ℝ) else 0) = s := by
  have hp := softplus_pos (g + softplus (L * s - L * (1 - s)))
  rcases hs with h | h <;> subst h
  · rw [if_neg (not_lt.mpr (by nlinarith))]
  · rw [if_pos (by nlinarith)]

/-- Scalar tensors for the concrete witnesses below. -/
def exT0 : Tensor := ⟨[], fun _ => 0⟩

def exT1 : Tensor := ⟨[], fun _ => 1⟩

/-! ### Claims about the noise-accessible Bernoulli -/

/-- C1: for every `delta_logits`, `base_logits`, every binary `samples`
of the same shape as `delta_logits`, and every outcome of the two Gumbel
draws, `sample_to_noise` succeeds and
`noise_to_sample (sample_to_noise samples) == samples` exactly. -/
theorem noise_sample_round_trip (m : NoiseAccessibleBernoulli)
    (samples : Tensor) (g1 g2 : ℕ → ℝ)
    (hsh : samples.shape = m.delta_logits.shape)
    (hbin : ∀ i, samples.data i = 0 ∨ samples.data i = 1) :
    ∃ noiseT, m.sample_to_noise samples g1 g2 = some noiseT ∧
      (m.noise_to_sample noiseT).eqAll samples := by
  rw [NoiseAccessibleBernoulli.sample_to_noise, if_pos hsh]
  exact ⟨_, rfl, rfl, fun i =>
    scalar_round_trip (m.logits.data i) (m.delta_logits.data i)
      (samples.data i) (g1 i - g2 i) (hbin i)⟩

theorem noise_sample_round_trip_witness :
    ∃ noiseT,
      NoiseAccessibleBernoulli.sample_to_noise ⟨exT0, exT0⟩ exT1
        (fun _ => 0) (fun _ => 0) = some noiseT ∧
      (NoiseAccessibleBernoulli.noise_to_sample ⟨exT0, exT0⟩ noiseT).eqAll exT1 :=
  noise_sample_round_trip ⟨exT0, exT0⟩ exT1 (fun _ => 0) (fun _ => 0) rfl
    (fun _ => Or.inr rfl)

/-- C2: under the shape contract, `sample_to_noise` computes exactly the
spec's pipeline (`sampleToNoisePipeline`) at every entry, with
`combined_logits = base_logits + delta_logits` the distribution's logits
and `diff_sample` the difference of the two Gumbel draws. -/
theorem sample_to_noise_pipeline_correct (m : NoiseAccessibleBernoulli)
    (samples : Tensor) (g1 g2 : ℕ → ℝ)
    (hsh : samples.shape = m.delta_logits.shape) :
    m.sample_to_noise samples g1 g2 = some ⟨samples.shape, fun i =>
      sampleToNoisePipeline (m.base_logits.data i) (m.delta_logits.data i)
        (samples.data i) (g1 i) (g2 i)⟩ := by
  rw [NoiseAccessibleBernoulli.sample_to_noise, if_pos hsh]
  rfl

theorem sample_to_noise_pipeline_correct_witness :
    NoiseAccessibleBernoulli.sample_to_noise ⟨exT0, exT0⟩ exT1
        (fun _ => 0) (fun _ => 0) =
      some ⟨exT1.shape, fun i =>
        sampleToNoisePipeline (exT0.data i) (exT0.data i) (exT1.data i) 0 0⟩ :=
  sample_to_noise_pipeline_correct ⟨exT0, exT0⟩ exT1 (fun _ => 0) (fun _ => 0) rfl

/-- C3: `noise_to_sample` has the shape of its noise argument, equals `1`
exactly where `delta_logits + noise > 0` and `0` otherwise, and is binary
at every entry.  It is deterministic by construction: the embedding is a
pure function with no random argument. -/
theorem noise_to_sample_correct (m : NoiseAccessibleBernoulli) (noise : Tensor) :
    (m.noise_to_sample noise).shape = noise.shape ∧
    ∀ i, ((m.noise_to_sample noise).data i =
        if 0 < m.delta_logits.data i + noise.data i then 1 else 0) ∧
      ((m.noise_to_sample noise).data i = 0 ∨ (m.noise_to_sample noise).data i = 1) := by
  refine ⟨rfl, fun i => ⟨rfl, ?_⟩⟩
  by_cases h : 0 < m.delta_logits.data i + noise.data i <;>
    simp [NoiseAccessibleBernoulli.noise_to_sample, h]

/-- C4: `sample_to_noise` hits its assertion (returns `none`) iff
`samples.shape ≠ delta_logits.shape`; with equal shapes it always
succeeds — there is no other validation. -/
theorem sample_to_noise_assert_iff (m : NoiseAccessibleBernoulli)
    (samples : Tensor) (g1 g2 : ℕ → ℝ) :
    (m.sample_to_noise samples g1 g2 = none ↔
      samples.shape ≠ m.delta_logits.shape) ∧
    ((m.sample_to_noise samples g1 g2).isSome ↔
      samples.shape = m.delta_logits.shape) := by
  unfold NoiseAccessibleBernoulli.sample_to_noise
  by_cases h : samples.shape = m.delta_logits.shape <;> simp [h]

end

end Causica
